import Mathlib

/-!
Verification of the kiosk AI-query pipeline.

This file embeds, as executable Lean definitions, the decision logic of the
repository's natural-language-to-SQL pipeline:

* `extract_sql`, `format_query_results` (services/auth-service/db.py);
* `is_conversational_query`, `get_conversational_response`,
  `create_ai_prompt`, `format_natural_response`, `process_ai_query`
  (backend/ai_service.py).

Text is modelled as `List Char`.  Python's case-insensitive operations are
modelled uniformly through ASCII lower-casing (`Char.toLower`); the source
only ever compares ASCII keywords, where `s.upper().startswith("SELECT")`
and `"select" prefix-of s.lower()` agree.  Fallible Python code (subscripts
that can raise `IndexError`, tuple unpacking) is modelled in `Option`, with
`none` standing for a raised exception.  External collaborators (the Ollama
generative backend, the MySQL store, the schema file) are parameters.
-/

namespace Kiosk

abbrev Str := List Char

/-- The code points of the characters Python's `str.strip()` removes
(every character for which `str.isspace` holds): tab, line feed, vertical
tab, form feed, carriage return, the file/group/record/unit separators,
space, next line, no-break space, ogham space mark, the en-quad…hair-space
range, line separator, paragraph separator, narrow no-break space, medium
mathematical space and ideographic space. -/
def pySpaceCodes : List Nat :=
  [0x9, 0xa, 0xb, 0xc, 0xd, 0x1c, 0x1d, 0x1e, 0x1f, 0x20, 0x85, 0xa0,
   0x1680, 0x2000, 0x2001, 0x2002, 0x2003, 0x2004, 0x2005, 0x2006, 0x2007,
   0x2008, 0x2009, 0x200a, 0x2028, 0x2029, 0x202f, 0x205f, 0x3000]

/-- Python's `str.isspace` / the default `str.strip()` character class. -/
def isPySpace (c : Char) : Bool := pySpaceCodes.contains c.toNat

/-- Python `s.strip()`: remove leading and trailing whitespace. -/
def pyStrip (s : Str) : Str :=
  (s.dropWhile isPySpace).rdropWhile isPySpace

/-- Python `s.lower()` (ASCII fragment). -/
def lowerS (s : Str) : Str := s.map Char.toLower

/-- Split `s` at the first case-insensitive occurrence of `pat`:
`some (before, rest)` with `s = before ++ rest` and `pat` a
case-insensitive prefix of `rest`; `none` when `pat` does not occur.
This models `re.search` for a literal pattern with `re.IGNORECASE`. -/
def splitOnceCI (pat : Str) : Str → Option (Str × Str)
  | [] => if (lowerS pat).isPrefixOf (lowerS ([] : Str)) then some ([], []) else none
  | c :: cs =>
    if (lowerS pat).isPrefixOf (lowerS (c :: cs)) then some ([], c :: cs)
    else (splitOnceCI pat cs).map (fun p => (c :: p.1, p.2))

/-- Case-insensitive substring test (Python `pat in s` after both sides are
lower-cased, or a case-insensitive `re.search`). -/
def containsCI (pat s : Str) : Bool := (splitOnceCI pat s).isSome

/-- The fenced-code-block search `re.search(r"```sql(.*?)```", raw, DOTALL|IGNORECASE)`:
the text between the first ` ```sql ` marker and the next ` ``` ` after it.
(The lazy group takes the first closing fence; and if the first opening fence
has no closing fence then no later opening fence can have one either, since a
later ` ```sql ` would itself contain the closing ` ``` `, so scanning only the
first opening fence is equivalent to the regex's backtracking.) -/
def findFence (s : Str) : Option Str :=
  match splitOnceCI (String.toList "```sql") s with
  | none => none
  | some (_, r) =>
    match splitOnceCI (String.toList "```") (r.drop 6) with
    | none => none
    | some (inner, _) => some inner

/-- The code points of the line boundaries Python's `str.splitlines`
recognises besides the line feed itself: vertical tab, form feed, carriage
return, the file/group/record separators, next line, line separator and
paragraph separator.  (`\r\n` counts as a single boundary.) -/
def lineBoundaryCodes : List Nat :=
  [0xb, 0xc, 0xd, 0x1c, 0x1d, 0x1e, 0x85, 0x2028, 0x2029]

/-- `c` is a `str.splitlines` boundary other than `'\n'`. -/
def isLineBreak (c : Char) : Bool := lineBoundaryCodes.contains c.toNat

/-- Normalise line terminators to `\n`: the pair `\r\n` becomes a single
`\n`, and every other `str.splitlines` boundary character becomes `\n`. -/
def normNl : Str → Str
  | [] => []
  | '\r' :: '\n' :: rest => '\n' :: normNl rest
  | c :: rest => (if isLineBreak c then '\n' else c) :: normNl rest

/-- Split at every `'\n'` (which never disappears: each segment is `'\n'`-free). -/
def splitNl : Str → List Str
  | [] => [[]]
  | '\n' :: rest => [] :: splitNl rest
  | c :: rest =>
    match splitNl rest with
    | [] => [[c]]
    | l :: ls => (c :: l) :: ls

/-- Python `s.splitlines()`: no terminators in the pieces, a trailing
terminator does not produce a final empty line, `""` gives `[]`. -/
def splitlines (s : Str) : List Str :=
  if normNl s = [] then []
  else if (normNl s).getLast? = some '\n' then (splitNl (normNl s)).dropLast
  else splitNl (normNl s)

/-- The line scan's trigger: `line.strip().lower().startswith(("select", "with"))`. -/
def lineStartsSql (l : Str) : Bool :=
  (String.toList "select").isPrefixOf (lowerS (pyStrip l))
    || (String.toList "with").isPrefixOf (lowerS (pyStrip l))

/-- The manual line extraction of `extract_sql`: a `found` flag is set at the
first line that starts (after stripping, case-insensitively) with SELECT or
WITH; from then on lines are collected until the first blank line. -/
def collectLines (found : Bool) : List Str → List Str
  | [] => []
  | l :: ls =>
    if found || lineStartsSql l then
      if (pyStrip l).isEmpty then [] else l :: collectLines true ls
    else collectLines false ls

/-- Python `"\n".join(lines)`. -/
def joinNl : List Str → Str
  | [] => []
  | [l] => l
  | l :: ls => l ++ '\n' :: joinNl ls

/-- Python `sql.split(";")[0]`. -/
def takeBeforeSemi (s : Str) : Str := s.takeWhile (fun c => c != ';')

/-- Python `sql.rstrip(";")`. -/
def rstripSemi (s : Str) : Str := s.rdropWhile (fun c => c == ';')

/-- The clean-up half of `extract_sql` (db.py lines 104-124): on a non-empty
candidate, cut at the first `;`, strip a `WITH` header by keeping the text
from the first `SELECT` onward, remove trailing `;`, and demand a `SELECT`
prefix. -/
def cleanupSql (sql : Str) : Str :=
  if sql.isEmpty then sql
  else
    let s1 := if sql.contains ';' then pyStrip (takeBeforeSemi sql) else sql
    let s2 :=
      if containsCI (String.toList "with") s1 then
        -- re.search(r"SELECT.*", sql, DOTALL|IGNORECASE): the suffix from the
        -- first case-insensitive SELECT; when it fails, sql is unchanged.
        match splitOnceCI (String.toList "select") s1 with
        | some (_, r) => pyStrip r
        | none => s1
      else s1
    let s3 := rstripSemi s2
    if (String.toList "select").isPrefixOf (lowerS s3) then s3 else []

/-- `extract_sql(raw_output)` (db.py lines 72-124): candidate from a fenced
` ```sql ` block if present, otherwise from the line scan; then the clean-up. -/
def extract_sql (raw : Str) : Str :=
  let sql :=
    match findFence raw with
    | some inner => pyStrip inner
    | none => pyStrip (joinNl (collectLines false (splitlines (pyStrip raw))))
  cleanupSql sql

/-! ### ai_service.py: classifier and conversational responder -/

/-- `CONVERSATIONAL_PHRASES` (ai_service.py lines 20-26). -/
def CONVERSATIONAL_PHRASES : List Str :=
  ["hello", "hi", "hey", "good morning", "good afternoon", "good evening",
   "how are you", "how's it going", "what's up",
   "thank you", "thanks", "appreciate it",
   "bye", "goodbye", "see you", "talk to you later",
   "help", "what can you do", "capabilities"].map String.toList

/-- `BUSINESS_QUESTIONS` (ai_service.py lines 29-33). -/
def BUSINESS_QUESTIONS : List Str :=
  ["revenue", "earnings", "sales", "orders", "customers", "items", "best",
   "least", "top", "average", "total", "count", "how much", "how many",
   "which day", "dine-in", "takeout", "pick up", "earn", "spend", "spent",
   "spending", "customer", "number", "amount", "popular", "selling",
   "yesterday", "today", "week", "month"].map String.toList

/-- `is_conversational_query(question)` (ai_service.py lines 35-55):
business terms win; otherwise conversational phrases decide; default `false`. -/
def is_conversational_query (question : Str) : Bool :=
  let question_lower := lowerS question
  let is_business := BUSINESS_QUESTIONS.any (fun term => containsCI term question_lower)
  let is_conversational :=
    CONVERSATIONAL_PHRASES.any (fun phrase => containsCI phrase question_lower)
  if is_business then false else is_conversational

/-- The fixed greeting sentence (also the defensive default bucket). -/
def GREETING_MSG : Str :=
  String.toList "Hello! I'm Nova AI, your sales and inventory assistant. How can I help you today?"

/-- `get_conversational_response(question)` (ai_service.py lines 57-85):
five phrase buckets tried in order, greeting as the default. -/
def get_conversational_response (question : Str) : Str :=
  let ql := lowerS question
  let hit (ps : List String) : Bool := ps.any (fun p => containsCI (String.toList p) ql)
  if hit ["hello", "hi", "hey", "good morning", "good afternoon", "good evening"] then
    GREETING_MSG
  else if hit ["how are you", "how's it going", "what's up"] then
    String.toList "I'm doing great! Ready to help you with your sales data and inventory questions. What would you like to know?"
  else if hit ["thank you", "thanks", "appreciate it"] then
    String.toList "You're welcome! Is there anything else you'd like to know about your sales or inventory?"
  else if hit ["bye", "goodbye", "see you", "talk to you later"] then
    String.toList "Goodbye! Feel free to come back anytime if you need help with your sales data."
  else if hit ["help", "what can you do", "capabilities"] then
    String.toList "I can help you with sales analysis, inventory tracking, customer insights, and financial reports. I can answer questions about best-selling items, revenue, customer spending, order types, and much more. Just ask me anything about your business data!"
  else
    GREETING_MSG

/-! ### Query results and formatting

A database row is a list of scalar values.  Numeric values are modelled as
integers (their exact decimal rendering is immaterial to the claims);
`null` is SQL NULL.  A Python subscript `row[i]` that can raise
`IndexError` is modelled by `pyGet`, with `none` standing for the raised
exception, and functions that can raise return `Option`. -/

inductive Val where
  | i (n : Int)
  | s (cs : Str)
  | null
deriving DecidableEq

/-- Python `str(value)` as used in f-strings: numbers in decimal, strings
verbatim, `None` for NULL. -/
def Val.render : Val → Str
  | .i n => (toString n).toList
  | .s cs => cs
  | .null => String.toList "None"

/-- Python `repr(value)` as used inside `str(row)`: strings get quotes. -/
def Val.reprV : Val → Str
  | .i n => (toString n).toList
  | .s cs => '\'' :: cs ++ ['\'']
  | .null => String.toList "None"

/-- Python `str(row)` for a tuple row: `(a, b)`, with the trailing comma of
one-element tuples. -/
def reprRow (row : List Val) : Str :=
  '(' :: (joinComma (row.map Val.reprV)) ++ (if row.length = 1 then [',', ')'] else [')'])
where
  joinComma : List Str → Str
    | [] => []
    | [x] => x
    | x :: xs => x ++ ',' :: ' ' :: joinComma xs

/-- `row[i]`: `none` is a raised `IndexError`. -/
def pyGet (row : List Val) (i : Nat) : Option Val := row.get? i

/-- Python `", ".join(items)`. -/
def joinCommaSp : List Str → Str
  | [] => []
  | [x] => x
  | x :: xs => x ++ ',' :: ' ' :: joinCommaSp xs

/-- Python `"\n".join(items)`. -/
def joinNlS : List Str → Str := joinNl

/-- `format_query_results(result)` (db.py lines 180-203). -/
def format_query_results (result : List (List Val)) : Option Str :=
  match result with
  | [] => some (String.toList "No data found.")
  | r0 :: _ =>
    if r0.length = 1 then
      (pyGet r0 0).map Val.render
    else if r0.length = 2 then do
      let items ← result.mapM (fun row => do
        let a ← pyGet row 0
        let b ← pyGet row 1
        pure (a.render ++ ' ' :: '(' :: b.render ++ [')']))
      pure (joinCommaSp items)
    else
      some (joinCommaSp (result.map reprRow))

/-- The ranked "top spending customers" rendering shared by two branches of
`format_natural_response`: `result[:5]` enumerated from 1, each row unpacked
as `name, total = row` (raising when a row is not a pair). -/
def topSpenders (result : List (List Val)) : Option Str := do
  let customers ← (result.take 5).enum.mapM (fun p =>
    match p.2 with
    | [name, total] =>
        some ((toString (p.1 + 1)).toList ++ '.' :: ' ' :: name.render
              ++ ':' :: ' ' :: '$' :: total.render)
    | _ => none)
  pure (String.toList "Top spending customers:\n" ++ joinNlS customers)

/-- `format_natural_response(question, result, formatted_result)`
(ai_service.py lines 187-289).  `none` models a raised exception
(in particular the `row[4]` subscript on a too-short row). -/
def format_natural_response (question : Str) (result : List (List Val))
    (formatted_result : Str) : Option Str :=
  let ql := lowerS question
  let has (w : String) : Bool := containsCI (String.toList w) ql
  match result with
  | [] => some (String.toList "I couldn't find any data for that question.")
  | r0 :: rest =>
    if r0.length = 1 then do
      let value ← pyGet r0 0
      if value = .null then
        pure (String.toList "No data found for that question.")
      else if has "revenue" || has "sales" || has "earnings" then
        pure (String.toList "Total revenue is $" ++ value.render ++ ['.'])
      else if has "customers" || has "visitors" then
        pure (value.render ++ String.toList " unique customers.")
      else if has "orders" || has "count" then
        pure (value.render ++ String.toList " orders.")
      else
        pure (String.toList "The result is " ++ value.render ++ ['.'])
    else if r0.length = 2 then
      let result := r0 :: rest
      if has "spending" || has "customers" then
        if result.length > 1 then topSpenders result
        else
          match r0 with
          | [name, total] => some (name.render ++ String.toList " spent $" ++ total.render ++ ['.'])
          | _ => none
      else if has "selling" || has "popular" then
        match r0 with
        | [name, quantity] =>
          if has "least" || has "worst" then
            some (String.toList "The least selling item is " ++ name.render
                  ++ String.toList " with " ++ quantity.render ++ String.toList " orders.")
          else
            some (String.toList "The best selling item is " ++ name.render
                  ++ String.toList " with " ++ quantity.render ++ String.toList " orders.")
        | _ => none
      else if has "orders" || has "types" then do
        let types ← result.mapM (fun row =>
          match row with
          | [order_type, count] =>
              some (order_type.render ++ ':' :: ' ' :: count.render ++ String.toList " orders")
          | _ => none)
        pure (String.toList "Order breakdown: " ++ joinCommaSp types ++ ['.'])
      else if has "customer" && has "count" then do
        let count ← pyGet r0 0
        pure (count.render ++ String.toList " unique customers.")
      else if has "customer" && (has "spent" || has "spending") then
        if result.length > 1 then topSpenders result
        else
          match r0 with
          | [name, total] => some (name.render ++ String.toList " spent $" ++ total.render ++ ['.'])
          | _ => none
      else do
        let items ← (result.take 5).mapM (fun row => do
          let a ← pyGet row 0
          let b ← pyGet row 1
          pure (a.render ++ ' ' :: '(' :: b.render ++ [')']))
        pure (String.toList "Results: " ++ joinCommaSp items)
    else
      let result := r0 :: rest
      if result.length ≤ 3 then do
        let formatted_items ← result.mapM (fun row =>
          if row.length ≥ 4 then do
            -- f"Order {row[0]}: {row[2]} ({row[3]}) - ${row[4]}"
            let a ← pyGet row 0
            let c ← pyGet row 2
            let d ← pyGet row 3
            let e ← pyGet row 4
            pure (String.toList "Order " ++ a.render ++ ':' :: ' ' :: c.render
                  ++ ' ' :: '(' :: d.render ++ ')' :: ' ' :: '-' :: ' ' :: '$' :: e.render)
          else
            pure (reprRow row))
        pure (String.toList "Here's what I found: " ++ joinCommaSp formatted_items)
      else
        some (String.toList "I found " ++ (toString result.length).toList
              ++ String.toList " records for your query.")

/-! ### Orchestrator -/

/-- The user-facing message for extraction failures and database errors
(ai_service.py lines 336 and 351): both branches return this very string. -/
def UNDERSTAND_MSG : Str :=
  String.toList "Sorry, I couldn't understand that question properly. Please try rephrasing it or ask something simpler."

/-- The user-facing message for generative-backend connection/timeout
errors (ai_service.py line 326): the backend error is appended in
parentheses. -/
def CONNECT_MSG (error : Str) : Str :=
  String.toList "Sorry, I'm having trouble connecting to my AI service right now. Please try again later or contact support. ("
    ++ error ++ [')']

/-- `create_ai_prompt(question)` (ai_service.py lines 87-147).  The schema
text comes from `load_schema()`, which reads a file; it is a parameter
here.  The template's exact wording is irrelevant to every claim: the
prompt is only ever handed to the generative backend. -/
def create_ai_prompt (schema question : Str) : Str :=
  String.toList "\n    You are a MySQL SQL expert. Generate ONLY the SQL query, no explanations.\n    \n    Given the following database schema:\n    "
    ++ schema
    ++ String.toList "\n    \n    Question: \"\"\""
    ++ question
    ++ String.toList "\"\"\"\n    \n    IMPORTANT: Use simple, direct queries without subqueries.\n    \n    For sales analysis: Use SUM(quantity) with GROUP BY name, ORDER BY total DESC for best selling, ASC for least selling\n    For revenue analysis: Use SUM(total) from transactions table\n    For customer analysis: Use COUNT(DISTINCT user_id) to count unique customers\n    For date filtering: Use DATE(payment_time), YEARWEEK(payment_time), MONTH(payment_time), YEAR(payment_time)\n    \n    CRITICAL DATE RULES:\n    - For \"last month\": Use MONTH(payment_time) = MONTH(DATE_SUB(CURDATE(), INTERVAL 1 MONTH)) AND YEAR(payment_time) = YEAR(DATE_SUB(CURDATE(), INTERVAL 1 MONTH))\n    - NEVER use DATE(payment_time) >= DATE_SUB(CURDATE(), INTERVAL 1 MONTH) for \"last month\" queries\n    - NEVER use BETWEEN DATE_SUB(CURDATE(), INTERVAL 1 MONTH) AND CURDATE() for \"last month\" queries\n    - \"Last month\" means ONLY the previous calendar month, not the last 30 days\n    - Example for \"last month\": WHERE MONTH(payment_time) = 6 AND YEAR(payment_time) = 2025 (if current month is July 2025)\n    - For \"yesterday\": Use DATE(payment_time) = DATE_SUB(CURDATE(), INTERVAL 1 DAY)\n    - For \"this week\": Use YEARWEEK(payment_time) = YEARWEEK(CURDATE())\n    - For \"this month\": Use MONTH(payment_time) = MONTH(CURDATE()) AND YEAR(payment_time) = YEAR(CURDATE())\n    \n    For order type analysis: Use GROUP BY order_type with COUNT(*)\n    For customer order counts: JOIN users with transactions and use HAVING clause\n    For tax calculations: Multiply total by 0.10 (10% tax rate)\n    \n    IMPORTANT SQL RULES:\n    - Always use table aliases when joining (e.g., FROM transactions t JOIN users u)\n    - For ambiguous columns, use table prefix (e.g., t.id, u.name)\n    - For \"this week\": Use YEARWEEK(payment_time) = YEARWEEK(CURDATE())\n    - For \"today\": Use DATE(payment_time) = CURDATE()\n    - For \"yesterday\": Use DATE(payment_time) = DATE_SUB(CURDATE(), INTERVAL 1 DAY)\n    - For \"this month\": Use MONTH(payment_time) = MONTH(CURDATE()) AND YEAR(payment_time) = YEAR(CURDATE())\n    - For order counts: Use COUNT(DISTINCT t.id) or COUNT(*)\n    - For revenue: Use SUM(t.total)\n    - For average order value: Use AVG(t.total)\n    - NEVER use semicolons (;) in the middle of queries\n    - NEVER use multiple SQL statements\n    - NEVER use WITH clauses or CTEs\n    - Use simple, direct queries only\n    - For order type queries: Use t.order_type, COUNT(*) as count FROM transactions t WHERE...\n    \n    Only return the SQL query, nothing else.\n    "

/-- The caller-facing envelope of `process_ai_query`:
`{"success": True, "question", "sql", "result"}` or
`{"success": False, "error"}`. -/
inductive Envelope where
  | ok (question sql result : Str)
  | err (msg : Str)
deriving DecidableEq

/-- Python truthiness of an optional string (`if error:`): `None` and `""`
are falsy. -/
def truthy : Option Str → Bool
  | none => false
  | some e => !e.isEmpty

/-- `process_ai_query(question)` (ai_service.py lines 291-363).
`ollama` models `query_ollama` (a transport returning `(text, error)`),
`exec` models `execute_query` (returning `(rows, error)`), and `schema`
the text of `load_schema()`.  The `check_aliases` call only prints a
warning (advisory, never blocks), and the `print` logging has no effect on
the envelope; neither is modelled.  `none` models an uncaught exception
escaping from the formatter. -/
def process_ai_query (schema : Str) (ollama : Str → Str × Option Str)
    (exec : Str → List (List Val) × Option Str) (question : Str) :
    Option Envelope :=
  if is_conversational_query question then
    some (.ok question (String.toList "N/A (Conversational query)")
            (get_conversational_response question))
  else
    let prompt := create_ai_prompt schema question
    let (ai_response, error) := ollama prompt
    if truthy error then
      some (.err (CONNECT_MSG (error.getD [])))
    else
      let generated_sql := extract_sql ai_response
      if generated_sql.isEmpty then
        some (.err UNDERSTAND_MSG)
      else
        let (result, db_error) := exec generated_sql
        if truthy db_error then
          some (.err UNDERSTAND_MSG)
        else do
          let formatted_result ← format_query_results result
          let natural_response ← format_natural_response question result formatted_result
          pure (.ok question generated_sql natural_response)

/-! ### Predicates used to state the claims -/

/-- A word character in the sense of token boundaries. -/
def isWordChar (c : Char) : Bool := c.isAlphanum || c == '_'

/-- The spec's "begins with the case-insensitive token SELECT": the prefix
`SELECT` followed by a non-word character or the end of the string.  (This
is a formalisation of the claim's wording; the code itself only ever checks
the bare prefix.) -/
def beginsWithSelectTokenCI (s : Str) : Bool :=
  (String.toList "select").isPrefixOf (lowerS s) &&
    (match (s.drop 6).head? with
     | some c => !isWordChar c
     | none => true)

/-- `pat` occurs case-insensitively somewhere in `s`. -/
def OccCI (pat s : Str) : Prop :=
  ∃ v, v <:+ s ∧ lowerS pat <+: lowerS v

/-- `s` contains a fenced block the extractor's regex can match: an
opening ` ```sql ` (case-insensitive) with a closing ` ``` ` at or after
the end of the opening marker. -/
def FencePat (s : Str) : Prop :=
  ∃ v w, v <:+ s ∧ lowerS (String.toList "```sql") <+: lowerS v ∧
    w <:+ v.drop 6 ∧ lowerS (String.toList "```") <+: lowerS w

/-! ## Infrastructure: stripping -/

theorem pyStrip_isInfixP (s : Str) : pyStrip s <:+: s :=
  List.infix_iff_prefix_suffix.mpr
    ⟨s.dropWhile isPySpace, List.rdropWhile_prefix _ _, List.dropWhile_suffix _⟩

theorem mem_of_mem_pyStrip {a : Char} {s : Str} (h : a ∈ pyStrip s) : a ∈ s :=
  (pyStrip_isInfixP s).subset h

theorem pyStrip_idem (s : Str) : pyStrip (pyStrip s) = pyStrip s := by
  have h1 : (pyStrip s).dropWhile isPySpace = pyStrip s := by
    rcases hu : pyStrip s with _ | ⟨c, u⟩
    · simp
    · have hc : c ∈ (s.dropWhile isPySpace).head? := by
        have hpre : pyStrip s <+: s.dropWhile isPySpace := List.rdropWhile_prefix _ _
        rw [hu] at hpre
        obtain ⟨t, ht⟩ := hpre
        rw [← ht]
        simp
      have hnot : ¬ isPySpace c = true := by
        rcases hd : s.dropWhile isPySpace with _ | ⟨d, v⟩
        · rw [hd] at hc; simp at hc
        · rw [hd] at hc
          simp only [List.head?_cons, Option.mem_def, Option.some.injEq] at hc
          subst hc
          have := List.head_dropWhile_not isPySpace s (by rw [hd]; simp)
          simpa [hd] using this
      rw [List.dropWhile_cons, if_neg hnot]
  show List.rdropWhile isPySpace (List.dropWhile isPySpace (pyStrip s)) = pyStrip s
  rw [h1]
  show List.rdropWhile isPySpace
      (List.rdropWhile isPySpace (List.dropWhile isPySpace s)) = pyStrip s
  rw [List.rdropWhile_idempotent]
  rfl

theorem contains_eq_false {a : Char} {l : Str} (h : a ∉ l) : l.contains a = false := by
  cases hc : l.contains a with
  | false => rfl
  | true =>
    obtain ⟨b, hb, he⟩ := List.contains_iff_exists_mem_beq.mp hc
    exact absurd (by rwa [eq_of_beq he]) h

theorem rstripSemi_eq_self {l : Str} (h : ';' ∉ l) : rstripSemi l = l := by
  rw [rstripSemi, List.rdropWhile_eq_self_iff]
  intro hl hlast
  exact h (by simpa [beq_iff_eq.mp hlast] using List.getLast_mem hl)

/-! ## Infrastructure: first case-insensitive occurrence -/

theorem splitOnceCI_some {pat s b r : Str} (h : splitOnceCI pat s = some (b, r)) :
    s = b ++ r ∧ lowerS pat <+: lowerS r := by
  induction s generalizing b with
  | nil =>
    rw [splitOnceCI] at h
    by_cases hc : (lowerS pat).isPrefixOf (lowerS ([] : Str)) = true
    · rw [if_pos hc] at h
      simp only [Option.some.injEq, Prod.mk.injEq] at h
      obtain ⟨hb, hr⟩ := h
      subst hb; subst hr
      exact ⟨rfl, List.isPrefixOf_iff_prefix.mp hc⟩
    · rw [if_neg hc] at h; cases h
  | cons c cs ih =>
    rw [splitOnceCI] at h
    by_cases hc : (lowerS pat).isPrefixOf (lowerS (c :: cs)) = true
    · rw [if_pos hc] at h
      simp only [Option.some.injEq, Prod.mk.injEq] at h
      obtain ⟨hb, hr⟩ := h
      subst hb; subst hr
      exact ⟨rfl, List.isPrefixOf_iff_prefix.mp hc⟩
    · rw [if_neg hc] at h
      rcases ho : splitOnceCI pat cs with _ | ⟨b', r'⟩
      · rw [ho] at h; cases h
      · rw [ho] at h
        simp only [Option.map_some', Option.some.injEq, Prod.ext_iff] at h
        obtain ⟨hb, hr⟩ := h
        obtain ⟨he, hp⟩ := ih (b := b') (by rw [ho, ← hr])
        subst hb hr
        exact ⟨by rw [List.cons_append, ← he], hp⟩

theorem splitOnceCI_none {pat s : Str} (h : splitOnceCI pat s = none) :
    ∀ v, v <:+ s → ¬ lowerS pat <+: lowerS v := by
  induction s with
  | nil =>
    intro v hv hp
    rw [splitOnceCI] at h
    have hv' : v = [] := List.suffix_nil.mp hv
    subst hv'
    rw [if_pos (List.isPrefixOf_iff_prefix.mpr hp)] at h
    cases h
  | cons c cs ih =>
    intro v hv hp
    rw [splitOnceCI] at h
    by_cases hc : (lowerS pat).isPrefixOf (lowerS (c :: cs)) = true
    · rw [if_pos hc] at h; cases h
    · rw [if_neg hc] at h
      rcases List.suffix_cons_iff.mp hv with hv' | hv'
      · subst hv'
        exact hc (List.isPrefixOf_iff_prefix.mpr hp)
      · rcases ho : splitOnceCI pat cs with _ | p
        · exact ih ho v hv' hp
        · rw [ho] at h; cases h

theorem splitOnceCI_min {pat s b r : Str} (h : splitOnceCI pat s = some (b, r)) :
    ∀ v, v <:+ s → lowerS pat <+: lowerS v → v <:+ r := by
  induction s generalizing b with
  | nil =>
    intro v hv _
    obtain ⟨_, _⟩ := splitOnceCI_some h
    have hv' : v = [] := List.suffix_nil.mp hv
    subst hv'
    exact List.nil_suffix
  | cons c cs ih =>
    intro v hv hp
    rw [splitOnceCI] at h
    by_cases hc : (lowerS pat).isPrefixOf (lowerS (c :: cs)) = true
    · rw [if_pos hc] at h
      simp only [Option.some.injEq, Prod.mk.injEq] at h
      obtain ⟨_, hr⟩ := h
      rw [← hr]
      exact hv
    · rw [if_neg hc] at h
      rcases ho : splitOnceCI pat cs with _ | ⟨b', r'⟩
      · rw [ho] at h; cases h
      · rw [ho] at h
        simp only [Option.map_some', Option.some.injEq, Prod.ext_iff] at h
        obtain ⟨_, hr⟩ := h
        rcases List.suffix_cons_iff.mp hv with hv' | hv'
        · subst hv'
          exact absurd (List.isPrefixOf_iff_prefix.mpr hp) hc
        · exact ih (b := b') (by rw [ho, hr]) v hv' hp

theorem occCI_of_containsCI_eq_false {pat s : Str} (h : containsCI pat s = false) :
    ¬ OccCI pat s := by
  rintro ⟨v, hv, hp⟩
  rcases ho : splitOnceCI pat s with _ | p
  · exact splitOnceCI_none ho v hv hp
  · rw [containsCI, ho] at h; cases h

theorem containsCI_eq_true_of_occ {pat s : Str} (h : OccCI pat s) :
    containsCI pat s = true := by
  cases hc : containsCI pat s with
  | true => rfl
  | false => exact absurd h (occCI_of_containsCI_eq_false hc)

/-! ## Infrastructure: occurrences, lower-casing and infixes -/

theorem occCI_of_isPrefix {pat s : Str} (h : lowerS pat <+: lowerS s) : OccCI pat s :=
  ⟨s, List.suffix_rfl, h⟩

theorem lowerS_append (a b : Str) : lowerS (a ++ b) = lowerS a ++ lowerS b :=
  List.map_append _ a b

theorem occCI_mono {pat y s : Str} (h : OccCI pat y) (hys : y <:+: s) : OccCI pat s := by
  obtain ⟨v, hv, hp⟩ := h
  obtain ⟨a, b, rfl⟩ := hys
  obtain ⟨u, hu⟩ := hv
  refine ⟨v ++ b, ⟨a ++ u, by rw [← hu]; simp⟩, ?_⟩
  rw [lowerS_append]
  exact hp.trans (List.prefix_append _ _)

theorem occCI_iff_isInfixP {pat s : Str} :
    OccCI pat s ↔ lowerS pat <:+: lowerS s := by
  constructor
  · rintro ⟨v, hv, hp⟩
    exact List.infix_iff_prefix_suffix.mpr ⟨lowerS v, hp, List.IsSuffix.map _ hv⟩
  · rintro ⟨a, b, heq⟩
    refine ⟨s.drop a.length, List.drop_suffix _ _, ?_⟩
    have h1 : lowerS (s.drop a.length) = (lowerS s).drop a.length :=
      List.map_drop _ s a.length
    have h2 : (lowerS s).drop a.length = lowerS pat ++ b := by
      rw [← heq, List.append_assoc, List.drop_left]
    rw [h1, h2]
    exact List.prefix_append _ _

/-! ## Infrastructure: lines and joins -/

theorem prefix_nl_cut {b : Str} :
    ∀ (a y : Str), '\n' ∉ y → y <+: a ++ '\n' :: b → y <+: a := by
  intro a
  induction a with
  | nil =>
    intro y hn hp
    rw [List.nil_append] at hp
    rcases List.prefix_cons_iff.mp hp with h | ⟨t, rfl, _⟩
    · subst h; exact List.nil_prefix
    · exact absurd (List.mem_cons_self _ _) hn
  | cons c a' ih =>
    intro y hn hp
    rw [List.cons_append] at hp
    rcases List.prefix_cons_iff.mp hp with h | ⟨t, rfl, ht⟩
    · subst h; exact List.nil_prefix
    · exact List.cons_prefix_cons.mpr
        ⟨rfl, ih t (fun hm => hn (List.mem_cons_of_mem _ hm)) ht⟩

theorem infix_nl_cut {b : Str} :
    ∀ (a y : Str), '\n' ∉ y → y <:+: a ++ '\n' :: b → y <:+: a ∨ y <:+: b := by
  intro a
  induction a with
  | nil =>
    intro y hn hi
    rw [List.nil_append] at hi
    rcases List.infix_cons_iff.mp hi with hp | hi'
    · rcases List.prefix_cons_iff.mp hp with h | ⟨t, rfl, _⟩
      · subst h; exact Or.inl List.nil_infix
      · exact absurd (List.mem_cons_self _ _) hn
    · exact Or.inr hi'
  | cons c a' ih =>
    intro y hn hi
    rw [List.cons_append] at hi
    rcases List.infix_cons_iff.mp hi with hp | hi'
    · exact Or.inl
        ((prefix_nl_cut (c :: a') y hn (by rwa [List.cons_append])).isInfix)
    · rcases ih y hn hi' with h | h
      · exact Or.inl (List.infix_cons_iff.mpr (Or.inr h))
      · exact Or.inr h

theorem infix_joinNl :
    ∀ (ls : List Str) (y : Str), '\n' ∉ y → y <:+: joinNl ls →
      y = [] ∨ ∃ l ∈ ls, y <:+: l := by
  intro ls
  induction ls with
  | nil =>
    intro y _ hi
    left
    have hj : joinNl ([] : List Str) = [] := rfl
    rw [hj] at hi
    exact List.infix_nil.mp hi
  | cons hd tl ih =>
    intro y hn hi
    cases tl with
    | nil =>
      right
      exact ⟨hd, List.mem_cons_self _ _, by simpa [joinNl] using hi⟩
    | cons h2 t2 =>
      have hj : joinNl (hd :: h2 :: t2) = hd ++ '\n' :: joinNl (h2 :: t2) := rfl
      rw [hj] at hi
      rcases infix_nl_cut hd y hn hi with h | h
      · exact Or.inr ⟨hd, List.mem_cons_self _ _, h⟩
      · rcases ih y hn h with h0 | ⟨l', hm, hl'⟩
        · exact Or.inl h0
        · exact Or.inr ⟨l', List.mem_cons_of_mem _ hm, hl'⟩

theorem lowerS_joinNl : ∀ ls : List Str, lowerS (joinNl ls) = joinNl (ls.map lowerS) := by
  intro ls
  induction ls with
  | nil => rfl
  | cons hd tl ih =>
    cases tl with
    | nil => rfl
    | cons h2 t2 =>
      have hj : joinNl (hd :: h2 :: t2) = hd ++ '\n' :: joinNl (h2 :: t2) := rfl
      rw [hj, lowerS_append]
      have : lowerS ('\n' :: joinNl (h2 :: t2)) = '\n' :: lowerS (joinNl (h2 :: t2)) := rfl
      rw [this, ih]
      rfl

/-! ## Infrastructure: line terminators -/

theorem normNl_no_break :
    ∀ (s : Str) (c : Char), c ∈ normNl s → isLineBreak c = false := by
  intro s
  induction s using normNl.induct with
  | case1 =>
    intro c hc
    simp [normNl] at hc
  | case2 rest ih =>
    intro c hc
    simp only [normNl, List.mem_cons] at hc
    rcases hc with rfl | hc
    · decide
    · exact ih c hc
  | case3 c0 rest hc0 ih =>
    intro c hc
    rw [normNl.eq_3 c0 rest hc0] at hc
    rcases List.mem_cons.mp hc with rfl | hc'
    · by_cases hb : isLineBreak c0 = true
      · rw [if_pos hb]
        decide
      · rw [if_neg hb]
        cases hbb : isLineBreak c0 with
        | true => exact absurd hbb hb
        | false => rfl
    · exact ih c hc'

theorem normNl_eq_self :
    ∀ s : Str, (∀ c ∈ s, isLineBreak c = false) → normNl s = s := by
  intro s
  induction s using normNl.induct with
  | case1 => intro _; rfl
  | case2 rest ih =>
    intro h
    have hcr := h '\r' (List.mem_cons_self _ _)
    exact absurd hcr (by decide)
  | case3 c rest hc ih =>
    intro h
    rw [normNl.eq_3 c rest hc]
    rw [if_neg (show ¬ (isLineBreak c = true) by
          rw [h c (List.mem_cons_self _ _)]; simp)]
    rw [ih (fun d hd => h d (List.mem_cons_of_mem _ hd))]

theorem prefix_of_normNl :
    ∀ (u l : Str), '\n' ∉ l → (∀ c ∈ l, isLineBreak c = false) →
      l <+: normNl u → l <+: u := by
  intro u
  induction u using normNl.induct with
  | case1 =>
    intro l _ _ hp
    simpa [normNl] using hp
  | case2 rest ih =>
    intro l hn hb hp
    simp only [normNl] at hp
    rcases List.prefix_cons_iff.mp hp with h | ⟨t, rfl, _⟩
    · subst h; exact List.nil_prefix
    · exact absurd (List.mem_cons_self _ _) hn
  | case3 c rest hc ih =>
    intro l hn hb hp
    rw [normNl.eq_3 c rest hc] at hp
    by_cases hbc : isLineBreak c = true
    · rw [if_pos hbc] at hp
      rcases List.prefix_cons_iff.mp hp with h | ⟨t, rfl, _⟩
      · subst h; exact List.nil_prefix
      · exact absurd (List.mem_cons_self _ _) hn
    · rw [if_neg hbc] at hp
      rcases List.prefix_cons_iff.mp hp with h | ⟨t, rfl, ht⟩
      · subst h; exact List.nil_prefix
      · exact List.cons_prefix_cons.mpr
          ⟨rfl, ih t (fun hm => hn (List.mem_cons_of_mem _ hm))
            (fun d hd => hb d (List.mem_cons_of_mem _ hd)) ht⟩

theorem infix_of_normNl :
    ∀ (u l : Str), '\n' ∉ l → (∀ c ∈ l, isLineBreak c = false) →
      l <:+: normNl u → l <:+: u := by
  intro u
  induction u using normNl.induct with
  | case1 =>
    intro l _ _ hi
    simpa [normNl] using hi
  | case2 rest ih =>
    intro l hn hb hi
    simp only [normNl] at hi
    rcases List.infix_cons_iff.mp hi with hp | hi'
    · rcases List.prefix_cons_iff.mp hp with h | ⟨t, rfl, _⟩
      · subst h; exact List.nil_infix
      · exact absurd (List.mem_cons_self _ _) hn
    · exact List.infix_cons_iff.mpr
        (Or.inr (List.infix_cons_iff.mpr (Or.inr (ih l hn hb hi'))))
  | case3 c rest hc ih =>
    intro l hn hb hi
    rw [normNl.eq_3 c rest hc] at hi
    rcases List.infix_cons_iff.mp hi with hp | hi'
    · exact (prefix_of_normNl (c :: rest) l hn hb
        (by rwa [normNl.eq_3 c rest hc])).isInfix
    · exact List.infix_cons_iff.mpr (Or.inr (ih l hn hb hi'))

theorem splitNl_ne_nil : ∀ u : Str, splitNl u ≠ [] := by
  intro u
  induction u using splitNl.induct with
  | case1 => simp [splitNl]
  | case2 rest ih => simp [splitNl]
  | case3 c rest hcn hnil ih => exact absurd hnil ih
  | case4 c rest hcn l ls hcons ih =>
    rw [splitNl.eq_3 c rest hcn, hcons]
    simp

theorem splitNl_no_nl : ∀ (u : Str) (l : Str), l ∈ splitNl u → '\n' ∉ l := by
  intro u
  induction u using splitNl.induct with
  | case1 =>
    intro l hl
    simp only [splitNl, List.mem_singleton] at hl
    subst hl
    simp
  | case2 rest ih =>
    intro l hl
    simp only [splitNl, List.mem_cons] at hl
    rcases hl with rfl | hl
    · simp
    · exact ih l hl
  | case3 c rest hc hnil =>
    intro l hl
    exact absurd hnil (splitNl_ne_nil rest)
  | case4 c rest hc l0 ls hcons ih =>
    intro l hl
    rw [splitNl.eq_3 c rest hc] at hl
    rw [hcons] at hl
    simp only [List.mem_cons] at hl
    rcases hl with rfl | hl
    · intro hm
      rcases List.mem_cons.mp hm with h | h
      · exact hc h.symm
      · exact ih l0 (by rw [hcons]; exact List.mem_cons_self _ _) h
    · exact ih l (by rw [hcons]; exact List.mem_cons_of_mem _ hl)

theorem splitNl_struct :
    ∀ (u h : Str) (t : List Str), splitNl u = h :: t →
      h <+: u ∧ ∀ l ∈ t, l <:+: u := by
  intro u
  induction u using splitNl.induct with
  | case1 =>
    intro h t heq
    simp only [splitNl, List.cons.injEq] at heq
    obtain ⟨rfl, rfl⟩ := heq
    exact ⟨List.nil_prefix, by simp⟩
  | case2 rest ih =>
    intro h t heq
    simp only [splitNl, List.cons.injEq] at heq
    obtain ⟨rfl, rfl⟩ := heq
    refine ⟨List.nil_prefix, ?_⟩
    intro l hl
    rcases hs : splitNl rest with _ | ⟨h', t'⟩
    · exact absurd hs (splitNl_ne_nil rest)
    · rw [hs] at hl
      obtain ⟨hh, ht⟩ := ih h' t' hs
      rcases List.mem_cons.mp hl with rfl | hl'
      · exact List.infix_cons_iff.mpr (Or.inr hh.isInfix)
      · exact List.infix_cons_iff.mpr (Or.inr (ht l hl'))
  | case3 c rest hc hnil =>
    intro h t heq
    exact absurd hnil (splitNl_ne_nil rest)
  | case4 c rest hc l0 ls hcons ih =>
    intro h t heq
    rw [splitNl.eq_3 c rest hc, hcons] at heq
    simp only [List.cons.injEq] at heq
    obtain ⟨rfl, rfl⟩ := heq
    obtain ⟨hh, ht⟩ := ih l0 ls hcons
    refine ⟨List.cons_prefix_cons.mpr ⟨rfl, hh⟩, ?_⟩
    intro l hl
    exact List.infix_cons_iff.mpr (Or.inr (ht l hl))

theorem splitNl_infixP {u l : Str} (h : l ∈ splitNl u) : l <:+: u := by
  rcases hs : splitNl u with _ | ⟨h0, t0⟩
  · exact absurd hs (splitNl_ne_nil u)
  · obtain ⟨hh, ht⟩ := splitNl_struct u h0 t0 hs
    rw [hs] at h
    rcases List.mem_cons.mp h with rfl | h'
    · exact hh.isInfix
    · exact ht l h'

theorem splitNl_singleton {u : Str} (h : '\n' ∉ u) : splitNl u = [u] := by
  induction u with
  | nil => rfl
  | cons c rest ih =>
    have hc : c = '\n' → False := fun hcc => h (by rw [hcc]; exact List.mem_cons_self _ _)
    rw [splitNl.eq_3 c rest hc]
    rw [ih (fun hm => h (List.mem_cons_of_mem _ hm))]

/-! ## Infrastructure: splitlines -/

theorem mem_splitlines_splitNl {s l : Str} (h : l ∈ splitlines s) :
    l ∈ splitNl (normNl s) := by
  rw [splitlines] at h
  by_cases h0 : normNl s = []
  · rw [if_pos h0] at h
    simp at h
  · rw [if_neg h0] at h
    by_cases hl : (normNl s).getLast? = some '\n'
    · rw [if_pos hl] at h
      exact List.dropLast_subset _ h
    · rw [if_neg hl] at h
      exact h

theorem mem_splitlines_infixP {s l : Str} (h : l ∈ splitlines s) : l <:+: s := by
  have h1 : l ∈ splitNl (normNl s) := mem_splitlines_splitNl h
  have h2 : l <:+: normNl s := splitNl_infixP h1
  have hn : '\n' ∉ l := splitNl_no_nl (normNl s) l h1
  have hb : ∀ c ∈ l, isLineBreak c = false := fun c hc =>
    normNl_no_break s c (h2.subset hc)
  exact infix_of_normNl s l hn hb h2

theorem mem_splitlines_no_nl {s l : Str} (h : l ∈ splitlines s) : '\n' ∉ l :=
  splitNl_no_nl (normNl s) l (mem_splitlines_splitNl h)

theorem splitlines_single {y : Str} (hy : y ≠ []) (hn : '\n' ∉ y)
    (hb : ∀ c ∈ y, isLineBreak c = false) :
    splitlines y = [y] := by
  rw [splitlines, normNl_eq_self y hb]
  rw [if_neg hy]
  have hlast : ¬ y.getLast? = some '\n' := fun hl =>
    hn (List.mem_of_getLast?_eq_some hl)
  rw [if_neg hlast]
  exact splitNl_singleton hn

/-! ## Infrastructure: the line scan -/

theorem collectLines_subset :
    ∀ (ls : List Str) (f : Bool) (x : Str), x ∈ collectLines f ls → x ∈ ls := by
  intro ls
  induction ls with
  | nil =>
    intro f x hx
    simp [collectLines] at hx
  | cons l t ih =>
    intro f x hx
    simp only [collectLines] at hx
    by_cases h1 : (f || lineStartsSql l) = true
    · rw [if_pos h1] at hx
      by_cases h2 : (pyStrip l).isEmpty = true
      · rw [if_pos h2] at hx
        simp at hx
      · rw [if_neg h2] at hx
        rcases List.mem_cons.mp hx with rfl | hx'
        · exact List.mem_cons_self _ _
        · exact List.mem_cons_of_mem _ (ih true x hx')
    · rw [if_neg h1] at hx
      exact List.mem_cons_of_mem _ (ih false x hx)

theorem collectLines_nil_of_no_start
    (ls : List Str) (h : ∀ l ∈ ls, lineStartsSql l = false) :
    collectLines false ls = [] := by
  induction ls with
  | nil => rfl
  | cons l t ih =>
    have hl : lineStartsSql l = false := h l (List.mem_cons_self _ _)
    simp only [collectLines]
    rw [if_neg (by simp [hl])]
    exact ih (fun x hx => h x (List.mem_cons_of_mem _ hx))

/-! ## Infrastructure: the clean-up stage -/

theorem cleanupSql_range (sql : Str) :
    cleanupSql sql = [] ∨
      ((String.toList "select") <+: lowerS (cleanupSql sql)
       ∧ ';' ∉ cleanupSql sql
       ∧ cleanupSql sql <:+: sql
       ∧ (pyStrip sql = sql → pyStrip (cleanupSql sql) = cleanupSql sql)) := by
  by_cases h0 : sql.isEmpty = true
  · left
    rw [cleanupSql, if_pos h0]
    exact List.isEmpty_iff.mp h0
  · unfold cleanupSql
    rw [if_neg h0]
    dsimp only
    generalize hs1 : (if sql.contains ';' then pyStrip (takeBeforeSemi sql) else sql) = s1
    have hsemi1 : ';' ∉ s1 := by
      rw [← hs1]
      by_cases hc : sql.contains ';' = true
      · rw [if_pos hc]
        intro hm
        have := List.mem_takeWhile_imp (mem_of_mem_pyStrip hm)
        simp at this
      · rw [if_neg hc]
        intro hm
        exact hc (List.contains_iff_exists_mem_beq.mpr ⟨';', hm, by decide⟩)
    have hinf1 : s1 <:+: sql := by
      rw [← hs1]
      by_cases hc : sql.contains ';' = true
      · rw [if_pos hc]
        exact (pyStrip_isInfixP _).trans ( List.takeWhile_prefix _).isInfix
      · rw [if_neg hc]
    have hstr1 : pyStrip sql = sql → pyStrip s1 = s1 := by
      intro hst
      rw [← hs1]
      by_cases hc : sql.contains ';' = true
      · rw [if_pos hc]
        exact pyStrip_idem _
      · rw [if_neg hc]
        exact hst
    generalize hs2 : (if containsCI (String.toList "with") s1 then
        match splitOnceCI (String.toList "select") s1 with
        | some (_, r) => pyStrip r
        | none => s1
      else s1) = s2
    have hfacts2 : (';' ∉ s2) ∧ s2 <:+: s1 ∧ (pyStrip s1 = s1 → pyStrip s2 = s2) := by
      rw [← hs2]
      by_cases hw : containsCI (String.toList "with") s1 = true
      · rw [if_pos hw]
        rcases ho : splitOnceCI (String.toList "select") s1 with _ | ⟨b, r⟩
        · exact ⟨hsemi1, List.infix_rfl, fun h => h⟩
        · obtain ⟨hdec, _⟩ := splitOnceCI_some ho
          have hrs : r <:+ s1 := ⟨b, hdec.symm⟩
          refine ⟨?_, ?_, ?_⟩
          · intro hm
            exact hsemi1 (hrs.subset (mem_of_mem_pyStrip hm))
          · exact (pyStrip_isInfixP _).trans hrs.isInfix
          · intro _
            exact pyStrip_idem _
      · rw [if_neg hw]
        exact ⟨hsemi1, List.infix_rfl, fun h => h⟩
    obtain ⟨hsemi2, hinf2, hstr2⟩ := hfacts2
    rw [rstripSemi_eq_self hsemi2]
    by_cases hsel : (String.toList "select").isPrefixOf (lowerS s2) = true
    · rw [if_pos hsel]
      right
      exact ⟨List.isPrefixOf_iff_prefix.mp hsel, hsemi2, hinf2.trans hinf1,
        fun h => hstr2 (hstr1 h)⟩
    · rw [if_neg hsel]
      left
      rfl

/-- The two phase-1 candidates: `extract_sql` is always `cleanupSql` of one
of them. -/
theorem extract_sql_eq_cleanup (raw : Str) :
    ∃ s, extract_sql raw = cleanupSql s := by
  unfold extract_sql
  rcases findFence raw with _ | inner
  · exact ⟨_, rfl⟩
  · exact ⟨_, rfl⟩

theorem extract_sql_eq_line {x : Str} (h : findFence x = none) :
    extract_sql x
      = cleanupSql (pyStrip (joinNl (collectLines false (splitlines (pyStrip x))))) := by
  unfold extract_sql
  rw [h]

theorem extract_sql_eq_fence {x inner : Str} (h : findFence x = some inner) :
    extract_sql x = cleanupSql (pyStrip inner) := by
  unfold extract_sql
  rw [h]

/-- The fenced-block contents are part of the raw text. -/
theorem findFence_inner_infixP {x inner : Str} (h : findFence x = some inner) :
    inner <:+: x := by
  unfold findFence at h
  rcases ho : splitOnceCI (String.toList "```sql") x with _ | ⟨b, r⟩
  · rw [ho] at h; cases h
  · rw [ho] at h
    dsimp only at h
    rcases hc : splitOnceCI (String.toList "```") (r.drop 6) with _ | ⟨i2, r2⟩
    · rw [hc] at h; cases h
    · rw [hc] at h
      simp only [Option.some.injEq] at h
      subst h
      obtain ⟨hd1, _⟩ := splitOnceCI_some ho
      obtain ⟨hd2, _⟩ := splitOnceCI_some hc
      have h1 : i2 <+: r.drop 6 := ⟨r2, hd2.symm⟩
      have h2 : r.drop 6 <:+ x := (List.drop_suffix _ _).trans ⟨b, hd1.symm⟩
      exact List.infix_iff_prefix_suffix.mpr ⟨r.drop 6, h1, h2⟩

/-- A newline-free case-insensitive occurrence in the joined line-scan
candidate lives inside one collected line, hence inside the raw text. -/
theorem occCI_line_path {pat x : Str}
    (hne : lowerS pat ≠ []) (hnl : '\n' ∉ lowerS pat)
    (hocc : OccCI pat (joinNl (collectLines false (splitlines (pyStrip x))))) :
    OccCI pat x := by
  have h1 : lowerS pat
      <:+: lowerS (joinNl (collectLines false (splitlines (pyStrip x)))) :=
    occCI_iff_isInfixP.mp hocc
  rw [lowerS_joinNl] at h1
  rcases infix_joinNl ((collectLines false (splitlines (pyStrip x))).map lowerS)
      (lowerS pat) hnl h1 with h | ⟨l', hm, hl'⟩
  · exact absurd h hne
  · obtain ⟨l0, hl0, rfl⟩ := List.mem_map.mp hm
    have hocc0 : OccCI pat l0 := occCI_iff_isInfixP.mpr hl'
    have hmem : l0 ∈ splitlines (pyStrip x) := collectLines_subset _ false l0 hl0
    have hinf : l0 <:+: pyStrip x := mem_splitlines_infixP hmem
    exact occCI_mono (occCI_mono hocc0 hinf) (pyStrip_isInfixP x)

/-! ## Infrastructure: the fenced-block pattern -/

theorem isSuffix_drop {v r : Str} (h : v <:+ r) (n : Nat) :
    v.drop n <:+ r.drop n := by
  obtain ⟨u, rfl⟩ := h
  rw [List.drop_append_eq_append_drop]
  exact (List.drop_suffix_drop_left v (Nat.sub_le n u.length)).trans
    (List.suffix_append _ _)

theorem findFence_some_fencePat {s inner : Str} (h : findFence s = some inner) :
    FencePat s := by
  unfold findFence at h
  rcases ho : splitOnceCI (String.toList "```sql") s with _ | ⟨b, r⟩
  · rw [ho] at h; cases h
  · rw [ho] at h
    dsimp only at h
    rcases hc : splitOnceCI (String.toList "```") (r.drop 6) with _ | ⟨i2, r2⟩
    · rw [hc] at h; cases h
    · obtain ⟨hd1, hp1⟩ := splitOnceCI_some ho
      obtain ⟨hd2, hp2⟩ := splitOnceCI_some hc
      exact ⟨r, r2, ⟨b, hd1.symm⟩, hp1, ⟨i2, hd2.symm⟩, hp2⟩

theorem fencePat_findFence {s : Str} (h : FencePat s) : findFence s ≠ none := by
  obtain ⟨v, w, hv, hov, hw, hcw⟩ := h
  intro hff
  unfold findFence at hff
  rcases ho : splitOnceCI (String.toList "```sql") s with _ | ⟨b, r⟩
  · exact splitOnceCI_none ho v hv hov
  · rw [ho] at hff
    dsimp only at hff
    rcases hc : splitOnceCI (String.toList "```") (r.drop 6) with _ | ⟨i2, r2⟩
    · have hvr : v <:+ r := splitOnceCI_min ho v hv hov
      have hwdrop : w <:+ r.drop 6 := hw.trans (isSuffix_drop hvr 6)
      exact splitOnceCI_none hc w hwdrop hcw
    · rw [hc] at hff; cases hff

theorem findFence_inner_no_close {s inner : Str} (h : findFence s = some inner) :
    ¬ OccCI (String.toList "```") inner := by
  unfold findFence at h
  rcases ho : splitOnceCI (String.toList "```sql") s with _ | ⟨b, r⟩
  · rw [ho] at h; cases h
  · rw [ho] at h
    dsimp only at h
    rcases hc : splitOnceCI (String.toList "```") (r.drop 6) with _ | ⟨i2, r2⟩
    · rw [hc] at h; cases h
    · rw [hc] at h
      simp only [Option.some.injEq] at h
      subst h
      rintro ⟨v, hv, hp⟩
      obtain ⟨hd2, _⟩ := splitOnceCI_some hc
      have hsuf : v ++ r2 <:+ r.drop 6 := by
        obtain ⟨u, rfl⟩ := hv
        rw [hd2]
        exact ⟨u, by rw [List.append_assoc]⟩
      have hpre : lowerS (String.toList "```") <+: lowerS (v ++ r2) := by
        rw [lowerS_append]
        exact hp.trans (List.prefix_append _ _)
      have hmin : v ++ r2 <:+ r2 := splitOnceCI_min hc (v ++ r2) hsuf hpre
      have hlen : (v ++ r2).length ≤ r2.length := hmin.length_le
      rw [List.length_append] at hlen
      have hvnil : v = [] := List.length_eq_zero.mp (by omega)
      subst hvnil
      have : lowerS (String.toList "```") = [] := List.prefix_nil.mp hp
      exact absurd this (by decide)

theorem fencePat_mono {y s : Str} (h : FencePat y) (hys : y <:+: s) : FencePat s := by
  obtain ⟨v, w, hv, hov, hw, hcw⟩ := h
  obtain ⟨a, b, rfl⟩ := hys
  obtain ⟨u, rfl⟩ := hv
  have h6 : 6 ≤ v.length := by
    have hl := hov.length_le
    have e1 : (lowerS (String.toList "```sql")).length = 6 := by decide
    have e2 : (lowerS v).length = v.length := by rw [lowerS, List.length_map]
    omega
  refine ⟨v ++ b, w ++ b, ?_, ?_, ?_, ?_⟩
  · exact ⟨a ++ u, by simp [List.append_assoc]⟩
  · rw [lowerS_append]
    exact hov.trans (List.prefix_append _ _)
  · rw [List.drop_append_of_le_length h6]
    obtain ⟨t, ht⟩ := hw
    exact ⟨t, by rw [← List.append_assoc, ht]⟩
  · rw [lowerS_append]
    exact hcw.trans (List.prefix_append _ _)

/-! ## Infrastructure: range facts about the extractor's output -/

theorem extract_sql_stripped (x : Str) :
    pyStrip (extract_sql x) = extract_sql x := by
  rcases hf : findFence x with _ | inner
  · rw [extract_sql_eq_line hf]
    rcases cleanupSql_range
        (pyStrip (joinNl (collectLines false (splitlines (pyStrip x))))) with
      h | ⟨_, _, _, h4⟩
    · rw [h]; rfl
    · exact h4 (pyStrip_idem _)
  · rw [extract_sql_eq_fence hf]
    rcases cleanupSql_range (pyStrip inner) with h | ⟨_, _, _, h4⟩
    · rw [h]; rfl
    · exact h4 (pyStrip_idem _)

theorem line_path_infix {x y : Str}
    (hy : y <:+: pyStrip (joinNl (collectLines false (splitlines (pyStrip x)))))
    (hn : '\n' ∉ y) : y = [] ∨ y <:+: x := by
  have h1 : y <:+: joinNl (collectLines false (splitlines (pyStrip x))) :=
    hy.trans (pyStrip_isInfixP _)
  rcases infix_joinNl _ y hn h1 with h | ⟨l, hm, hl⟩
  · exact Or.inl h
  · have hmem := collectLines_subset _ false l hm
    exact Or.inr ((hl.trans (mem_splitlines_infixP hmem)).trans (pyStrip_isInfixP x))

theorem extract_sql_no_fence {x : Str} (hn : '\n' ∉ extract_sql x) :
    ¬ FencePat (extract_sql x) := by
  intro hFP
  rcases hf : findFence x with _ | inner
  · rw [extract_sql_eq_line hf] at hFP hn
    have hinf : cleanupSql (pyStrip (joinNl (collectLines false (splitlines (pyStrip x)))))
        <:+: pyStrip (joinNl (collectLines false (splitlines (pyStrip x)))) := by
      rcases cleanupSql_range
          (pyStrip (joinNl (collectLines false (splitlines (pyStrip x))))) with
        h | ⟨_, _, h3, _⟩
      · rw [h]; exact List.nil_infix
      · exact h3
    rcases line_path_infix hinf hn with h | h
    · rw [h] at hFP
      obtain ⟨v, w, hv, hov, _, _⟩ := hFP
      have hvnil : v = [] := List.suffix_nil.mp hv
      subst hvnil
      have : lowerS (String.toList "```sql") = [] := List.prefix_nil.mp hov
      exact absurd this (by decide)
    · exact fencePat_findFence (fencePat_mono hFP h) hf
  · rw [extract_sql_eq_fence hf] at hFP
    obtain ⟨v, w, hv, hov, _, _⟩ := hFP
    have hocc : OccCI (String.toList "```") (cleanupSql (pyStrip inner)) := by
      refine ⟨v, hv, ?_⟩
      have hpp : lowerS (String.toList "```") <+: lowerS (String.toList "```sql") := by
        decide
      exact hpp.trans hov
    have hinf2 : cleanupSql (pyStrip inner) <:+: inner := by
      rcases cleanupSql_range (pyStrip inner) with h | ⟨_, _, h3, _⟩
      · rw [h]; exact List.nil_infix
      · exact h3.trans (pyStrip_isInfixP inner)
    exact findFence_inner_no_close hf (occCI_mono hocc hinf2)

/-! ## Claims about the classifier -/

/-- C2: for every question whose lower-cased text contains at least one
term of the fixed business vocabulary, the classifier returns Business
(`is_conversational_query` returns `false`), even if the question also
contains a conversational phrase; and when neither vocabulary matches, the
result is Business by default. -/
theorem c2_business_precedence :
    (∀ q term, term ∈ BUSINESS_QUESTIONS → containsCI term (lowerS q) = true →
      is_conversational_query q = false) ∧
    (∀ q, (∀ term ∈ BUSINESS_QUESTIONS, containsCI term (lowerS q) = false) →
      (∀ p ∈ CONVERSATIONAL_PHRASES, containsCI p (lowerS q) = false) →
      is_conversational_query q = false) := by
  constructor
  · intro q term hmem hsub
    have hb : BUSINESS_QUESTIONS.any (fun t => containsCI t (lowerS q)) = true :=
      List.any_eq_true.mpr ⟨term, hmem, hsub⟩
    simp [is_conversational_query, hb]
  · intro q hb hc
    have hb' : BUSINESS_QUESTIONS.any (fun t => containsCI t (lowerS q)) = false := by
      simp only [List.any_eq_false]
      intro t ht
      simp [hb t ht]
    have hc' : CONVERSATIONAL_PHRASES.any (fun p => containsCI p (lowerS q)) = false := by
      simp only [List.any_eq_false]
      intro p hp
      simp [hc p hp]
    simp [is_conversational_query, hb', hc']

/-- Witness for C2 at the spec's own example: "hi, what's total revenue
today?" contains the business term "revenue" and is classified Business. -/
theorem c2_witness :
    is_conversational_query (String.toList "hi, what's total revenue today?") = false :=
  c2_business_precedence.1 _ (String.toList "revenue") (by decide) (by decide)

/-- C10: classification matches vocabularies by substring containment on
the lower-cased question, not by word boundaries: any question containing a
conversational phrase as a bare substring (even inside another word) and no
business term as a substring is classified conversational. -/
theorem c10_substring_matching :
    ∀ q, (∃ p ∈ CONVERSATIONAL_PHRASES, containsCI p (lowerS q) = true) →
      (∀ term ∈ BUSINESS_QUESTIONS, containsCI term (lowerS q) = false) →
      is_conversational_query q = true := by
  intro q ⟨p, hp, hsub⟩ hb
  have hb' : BUSINESS_QUESTIONS.any (fun t => containsCI t (lowerS q)) = false := by
    simp only [List.any_eq_false]
    intro t ht
    simp [hb t ht]
  have hc' : CONVERSATIONAL_PHRASES.any (fun t => containsCI t (lowerS q)) = true :=
    List.any_eq_true.mpr ⟨p, hp, hsub⟩
  simp [is_conversational_query, hb', hc']

/-- Witness for C10: "I think so" contains "hi" inside "think" and no
business term, so it is classified conversational. -/
theorem c10_witness :
    is_conversational_query (String.toList "I think so") = true :=
  c10_substring_matching _ ⟨String.toList "hi", by decide, by decide⟩ (by decide)

/-! ## Claims about the formatter -/

/-- C9: `format_natural_response` ignores its `formatted_result` parameter:
with the question and raw result fixed, any two pre-formatted strings give
the same outcome (same exception behaviour, same output). -/
theorem c9_ignores_formatted_result :
    ∀ (q : Str) (r : List (List Val)) (f1 f2 : Str),
      format_natural_response q r f1 = format_natural_response q r f2 :=
  fun _ _ _ _ => rfl

/-- C3 (code bug): on a result whose rows have exactly 4 columns the
formatter does not degrade to a textual fallback — the `len(row) >= 4`
branch evaluates `row[4]`, which raises `IndexError` (modelled as `none`)
instead of returning a string. -/
theorem c3_failing_eval :
    format_natural_response (String.toList "recent transactions")
      [[.i 7, .s (String.toList "x"), .s (String.toList "Burger"),
        .s (String.toList "dine-in")]] [] = none := by decide

/-! ## Claims about the orchestrator -/

/-- C8: `process_ai_query "hello"` short-circuits on the conversational
path: for every schema text and every behaviour of the generative backend
and of the database executor, the envelope is a success whose `sql` field
is literally "N/A (Conversational query)" and whose result is the fixed
greeting sentence — so neither external collaborator can influence it. -/
theorem c8_hello_envelope :
    ∀ (schema : Str) (ollama : Str → Str × Option Str)
      (exec : Str → List (List Val) × Option Str),
      process_ai_query schema ollama exec (String.toList "hello")
        = some (.ok (String.toList "hello")
            (String.toList "N/A (Conversational query)") GREETING_MSG) :=
  fun _ _ _ => rfl

/-- C4: an extraction failure and a database execution error produce
failure envelopes carrying literally the same user-facing error string,
and that string differs from the message produced for a generative-backend
connection or timeout error, whatever backend error text is reported. -/
theorem c4_error_messages :
    (∀ (schema : Str) (exec : Str → List (List Val) × Option Str) (q gen : Str),
      is_conversational_query q = false → extract_sql gen = [] →
      process_ai_query schema (fun _ => (gen, none)) exec q
        = some (.err UNDERSTAND_MSG)) ∧
    (∀ (schema q gen : Str) (rows : List (List Val)) (e : Str),
      is_conversational_query q = false → extract_sql gen ≠ [] → e ≠ [] →
      process_ai_query schema (fun _ => (gen, none)) (fun _ => (rows, some e)) q
        = some (.err UNDERSTAND_MSG)) ∧
    (∀ (schema : Str) (exec : Str → List (List Val) × Option Str) (q gen e : Str),
      is_conversational_query q = false → e ≠ [] →
      process_ai_query schema (fun _ => (gen, some e)) exec q
        = some (.err (CONNECT_MSG e))) ∧
    (∀ e : Str, UNDERSTAND_MSG ≠ CONNECT_MSG e) := by
  refine ⟨?_, ?_, ?_, ?_⟩
  · intro schema exec q gen hq hgen
    simp [process_ai_query, hq, truthy, hgen]
  · intro schema q gen rows e hq hgen he
    have h1 : (extract_sql gen).isEmpty = false := by
      cases hgen' : extract_sql gen with
      | nil => exact absurd hgen' hgen
      | cons a l => simp
    have h2 : e.isEmpty = false := by
      cases e with
      | nil => exact absurd rfl he
      | cons a l => simp
    simp [process_ai_query, hq, truthy, h1, h2]
  · intro schema exec q gen e hq he
    have h2 : e.isEmpty = false := by
      cases e with
      | nil => exact absurd rfl he
      | cons a l => simp
    simp [process_ai_query, hq, truthy, h2]
  · intro e h
    have h8 : (UNDERSTAND_MSG)[8]? = (CONNECT_MSG e)[8]? := by
      exact congrArg (fun l : Str => l[8]?) h
    have hr : (CONNECT_MSG e)[8]? = some '\'' := by
      have hlen : (8 : Nat) <
          (String.toList "Sorry, I'm having trouble connecting to my AI service right now. Please try again later or contact support. (").length := by
        decide
      unfold CONNECT_MSG
      rw [List.append_assoc, List.getElem?_append, if_pos hlen]
      decide
    rw [hr] at h8
    have hl : (UNDERSTAND_MSG)[8]? = some ' ' := by decide
    rw [hl] at h8
    simp at h8

/-- Witness for C4: a concrete extraction failure produces the generic
"couldn't understand" envelope, and that message differs from the
connection-error message. -/
theorem c4_witness :
    process_ai_query [] (fun _ => (String.toList "nope", none))
        (fun _ => ([], none)) (String.toList "total revenue")
      = some (.err UNDERSTAND_MSG)
    ∧ UNDERSTAND_MSG ≠ CONNECT_MSG [] :=
  ⟨c4_error_messages.1 [] _ _ _ (by decide) (by decide),
   c4_error_messages.2.2.2 []⟩

/-! ## Concrete counterexamples for the extractor claims -/

/-- C1 counterexample: on the raw text "SELECTED WITH x" the extractor
returns "SELECTED WITH x" itself — a non-empty result that does not begin
with the *token* SELECT and still contains a WITH. -/
theorem c1_counterexample :
    ¬ (extract_sql (String.toList "SELECTED WITH x") = []
       ∨ (beginsWithSelectTokenCI (extract_sql (String.toList "SELECTED WITH x")) = true
          ∧ (extract_sql (String.toList "SELECTED WITH x")).contains ';' = false
          ∧ containsCI (String.toList "with")
              (extract_sql (String.toList "SELECTED WITH x")) = false)) := by
  decide

/-- C5 counterexample: `extract_sql "WITH x AS (SELECT 1)"` is not the
empty string (it returns "SELECT 1)", the suffix from the SELECT inside
the CTE body). -/
theorem c5_counterexample :
    extract_sql (String.toList "WITH x AS (SELECT 1)") ≠ [] := by decide

/-- C6 counterexample: extraction is not idempotent.  On a fenced block
whose contents have a blank line, the first pass returns the whole fence
contents while the second pass stops at the blank line; on fence contents
with carriage returns or vertical tabs (both `str.splitlines` boundaries),
the second pass rewrites them to line feeds. -/
theorem c6_counterexample :
    extract_sql (extract_sql (String.toList "```sql\nselect 1\n\nfoo```"))
      ≠ extract_sql (String.toList "```sql\nselect 1\n\nfoo```")
    ∧ extract_sql (extract_sql (String.toList "```sql\rselect 1\rfrom t```"))
      ≠ extract_sql (String.toList "```sql\rselect 1\rfrom t```")
    ∧ extract_sql (extract_sql (String.toList "```sql select 1\x0bselect 2```"))
      ≠ extract_sql (String.toList "```sql select 1\x0bselect 2```") := by
  exact ⟨by decide, by decide, by decide⟩

/-- C7 counterexample: an input with no line beginning with SELECT or WITH
can still extract successfully through the fenced-block path. -/
theorem c7_counterexample :
    (∀ l ∈ splitlines (pyStrip (String.toList "x ```sql select 1``` y")),
      lineStartsSql l = false)
    ∧ extract_sql (String.toList "x ```sql select 1``` y") ≠ [] := by
  exact ⟨by decide, by decide⟩

/-! ## The amended extractor claims -/

/-- C1 (amended): for every raw input `x`, `extract_sql x` is either the
empty string or a statement that begins with the case-insensitive
character sequence SELECT (not necessarily a whole token) and contains no
';'.  (Text before the first SELECT is what the WITH-stripping removes; a
WITH token occurring after the leading SELECT may remain, and the leading
SELECT need not be followed by a word boundary — see `c1_counterexample`.) -/
theorem c1_amended_shape :
    ∀ x : Str, extract_sql x = [] ∨
      ((String.toList "select") <+: lowerS (extract_sql x) ∧ ';' ∉ extract_sql x) := by
  intro x
  obtain ⟨s, hs⟩ := extract_sql_eq_cleanup x
  rw [hs]
  rcases cleanupSql_range s with h | ⟨h1, h2, _, _⟩
  · exact Or.inl h
  · exact Or.inr ⟨h1, h2⟩

/-- C5 (amended): on the bare CTE `"WITH x AS (SELECT 1)"` the extractor
returns `"SELECT 1)"` — the suffix from the SELECT token inside the CTE
body — not the empty string; extraction returns empty for every input
with no case-insensitive occurrence of "select" at all (in particular for
a bare WITH block whose body contains no SELECT, such as
`"WITH x AS (TABLE t)"`). -/
theorem c5_amended :
    extract_sql (String.toList "WITH x AS (SELECT 1)") = String.toList "SELECT 1)"
    ∧ ∀ x : Str, containsCI (String.toList "select") x = false →
        extract_sql x = [] := by
  constructor
  · decide
  · intro x hcs
    by_contra hne
    have hlow : lowerS (String.toList "select") = String.toList "select" := by decide
    have hocc : OccCI (String.toList "select") x := by
      rcases hf : findFence x with _ | inner
      · rw [extract_sql_eq_line hf] at hne
        rcases cleanupSql_range
            (pyStrip (joinNl (collectLines false (splitlines (pyStrip x))))) with
          h | ⟨h1, _, h3, _⟩
        · exact absurd h hne
        · have ho1 : OccCI (String.toList "select")
              (cleanupSql (pyStrip (joinNl (collectLines false (splitlines (pyStrip x)))))) :=
            occCI_of_isPrefix (by rw [hlow]; exact h1)
          have ho2 : OccCI (String.toList "select")
              (joinNl (collectLines false (splitlines (pyStrip x)))) :=
            occCI_mono (occCI_mono ho1 h3) (pyStrip_isInfixP _)
          exact occCI_line_path (by decide) (by decide) ho2
      · rw [extract_sql_eq_fence hf] at hne
        rcases cleanupSql_range (pyStrip inner) with h | ⟨h1, _, h3, _⟩
        · exact absurd h hne
        · have ho1 : OccCI (String.toList "select") (cleanupSql (pyStrip inner)) :=
            occCI_of_isPrefix (by rw [hlow]; exact h1)
          exact occCI_mono (occCI_mono (occCI_mono ho1 h3) (pyStrip_isInfixP _))
            (findFence_inner_infixP hf)
    have hct := containsCI_eq_true_of_occ hocc
    rw [hcs] at hct
    exact Bool.false_ne_true hct

/-- Witness for C5's amended claim: a WITH block with no SELECT anywhere
extracts to empty. -/
theorem c5_witness :
    extract_sql (String.toList "WITH x AS (TABLE t)") = [] :=
  c5_amended.2 _ (by decide)

/-- C7 (amended): for every input in which the fenced-block search finds
nothing and no line begins (after stripping, case-insensitively) with
SELECT or WITH, extraction returns the empty string.  (Without the fence
condition the claim fails — see `c7_counterexample`.) -/
theorem c7_amended_empty :
    ∀ x : Str, findFence x = none →
      (∀ l ∈ splitlines (pyStrip x), lineStartsSql l = false) →
      extract_sql x = [] := by
  intro x hf hl
  rw [extract_sql_eq_line hf]
  rw [collectLines_nil_of_no_start _ hl]
  rfl

/-- Witness for C7's amended claim at the spec's own example. -/
theorem c7_witness :
    extract_sql (String.toList "I cannot help with that.") = [] :=
  c7_amended_empty _ (by decide) (by decide)

/-- C6 (amended): extraction is idempotent on every raw text whose
extracted result is a single line — it contains no line feed and no other
`str.splitlines` boundary character (carriage return, vertical tab, form
feed, file/group/record separator, next line, line or paragraph
separator).  (A result with a blank line or with such a boundary
character, obtainable only through a fenced block, is changed by a second
extraction — see `c6_counterexample`.) -/
theorem c6_amended_idempotent :
    ∀ x : Str, '\n' ∉ extract_sql x →
      (∀ c ∈ extract_sql x, isLineBreak c = false) →
      extract_sql (extract_sql x) = extract_sql x := by
  intro x hn hb
  by_cases hy : extract_sql x = []
  · rw [hy]
    decide
  · have hstr : pyStrip (extract_sql x) = extract_sql x := extract_sql_stripped x
    obtain ⟨s, hs⟩ := extract_sql_eq_cleanup x
    have hrange := cleanupSql_range s
    rw [← hs] at hrange
    rcases hrange with h | ⟨hsel, hsemi, _, _⟩
    · exact absurd h hy
    have hnf : ¬ FencePat (extract_sql x) := extract_sql_no_fence hn
    have hff : findFence (extract_sql x) = none := by
      rcases hfe : findFence (extract_sql x) with _ | inner
      · rfl
      · exact absurd (findFence_some_fencePat hfe) hnf
    rw [extract_sql_eq_line hff, hstr]
    rw [splitlines_single hy hn hb]
    have hselB : (String.toList "select").isPrefixOf (lowerS (extract_sql x)) = true :=
      List.isPrefixOf_iff_prefix.mpr hsel
    have hstart : lineStartsSql (extract_sql x) = true := by
      rw [lineStartsSql, hstr, hselB]
      exact Bool.true_or _
    have hemp : ¬ ((extract_sql x).isEmpty = true) := by
      simpa [List.isEmpty_iff] using hy
    have hcollect : collectLines false [extract_sql x] = [extract_sql x] := by
      simp only [collectLines]
      rw [if_pos (show (false || lineStartsSql (extract_sql x)) = true by
            rw [hstart]; decide)]
      rw [if_neg (show ¬ ((pyStrip (extract_sql x)).isEmpty = true) by
            rw [hstr]; exact hemp)]
    rw [hcollect]
    have hjoin : joinNl [extract_sql x] = extract_sql x := rfl
    rw [hjoin, hstr]
    unfold cleanupSql
    rw [if_neg hemp]
    dsimp only
    rw [contains_eq_false hsemi]
    rw [if_neg (show ¬ (false = true) by simp)]
    have hlow : lowerS (String.toList "select") = String.toList "select" := by decide
    by_cases hw : containsCI (String.toList "with") (extract_sql x) = true
    · rw [if_pos hw]
      obtain ⟨c, cs, hcons⟩ := List.exists_cons_of_ne_nil hy
      have hsplit : splitOnceCI (String.toList "select") (extract_sql x)
          = some ([], extract_sql x) := by
        rw [hcons]
        simp only [splitOnceCI]
        rw [if_pos (show ((lowerS (String.toList "select")).isPrefixOf
              (lowerS (c :: cs))) = true by rw [hlow, ← hcons]; exact hselB)]
      rw [hsplit]
      dsimp only
      rw [hstr]
      rw [rstripSemi_eq_self hsemi]
      rw [if_pos hselB]
    · rw [if_neg hw]
      rw [rstripSemi_eq_self hsemi]
      rw [if_pos hselB]

/-- Witness for C6's amended claim: a single-line extraction result, on
which a second extraction is a fixed point. -/
theorem c6_witness :
    extract_sql (extract_sql (String.toList "SELECT 1"))
      = extract_sql (String.toList "SELECT 1") :=
  c6_amended_idempotent _ (by decide) (by decide)

end Kiosk
